import Mathlib

/-!
Verification of the activation-buffer subsystem (`buffer.py`).

The buffer stores activation vectors together with a per-vector consumed
flag (`read`).  `__next__` refills the buffer when the unconsumed count
drops below half of the target occupancy `n_ctxs * ctx_len`, then samples
a random batch of unconsumed vectors, marks them consumed and returns
them.  We embed the class shallowly: tensors become lists, the text
generator becomes a list of items (each item is the list of per-token
vectors the model produces for it after truncation to `ctx_len` and
attention-mask filtering), and `torch.randperm` becomes an explicit
permutation parameter.
-/

namespace DictLearning

/-- Constructor parameters of `ActivationBuffer` that govern the
refill/sampling policy (`n_ctxs`, `ctx_len`, `in_batch_size`,
`out_batch_size`). -/
structure Cfg where
  n_ctxs : Nat
  ctx_len : Nat
  in_batch_size : Nat
  out_batch_size : Nat

/-- Target occupancy `n_ctxs * ctx_len` (the loop bound of `_refresh_std`). -/
def Cfg.target (c : Cfg) : Nat := c.n_ctxs * c.ctx_len

/-- Refill threshold `n_ctxs * ctx_len // 2` from `__next__`. -/
def Cfg.threshold (c : Cfg) : Nat := c.n_ctxs * c.ctx_len / 2

/-- `(~read).sum()`: the number of unconsumed (false) flags. -/
def countFalse : List Bool → Nat
  | [] => 0
  | b :: r => (if b then 0 else 1) + countFalse r

/-- `(~read).nonzero().squeeze()` as a list: the ascending indices of the
false flags. -/
def falseIdxs : List Bool → List Nat
  | [] => []
  | b :: r => (if b then [] else [0]) ++ (falseIdxs r).map (· + 1)

/-- Boolean-mask tensor indexing `xs[mask]`: keep the entries whose mask
bit is true (positions beyond the shorter list do not arise in the
well-formed states where Python would not raise). -/
def maskSelect (xs : List α) (mask : List Bool) : List α :=
  ((xs.zip mask).filter fun p => p.2).map Prod.fst

/-- `~mask`. -/
def boolNot (mask : List Bool) : List Bool := mask.map (fun b => !b)

/-- `read[idxs] = True`: set each listed index to true. -/
def markTrue (r : List Bool) (idxs : List Nat) : List Bool :=
  idxs.foldl (fun acc i => acc.set i true) r

/-- Integer-tensor indexing `xs[idxs]`; `none` models the IndexError
Python raises when some index is out of bounds. -/
def getAll (xs : List α) : List Nat → Option (List α)
  | [] => some []
  | i :: is =>
    match xs[i]?, getAll xs is with
    | some v, some vs => some (v :: vs)
    | _, _ => none

/-- `text_batch`: take `n` items from the data generator; `StopIteration`
(modelled as `none`, with the generator drained) when fewer remain. -/
def text_batch (n : Nat) (data : List σ) : Option (List σ × List σ) :=
  if n ≤ data.length then some (data.take n, data.drop n) else none

/-- One model invocation of `_refresh_std`'s loop body: each ingested item
contributes one activation vector per real (non-padding) token, truncated
to `ctx_len`, concatenated in batch order — the shallow rendering of
`hidden_states[attention_mask != 0]`. -/
def extractBatch (ctx_len : Nat) (items : List (List α)) : List α :=
  (items.map fun it => it.take ctx_len).flatten

/-- The mutable state of a single-tap (`io='in'` or `'out'`) buffer:
the activation store, the consumed flags, and the not-yet-ingested
remainder of the text stream. -/
structure St (α : Type) where
  activations : List α
  read : List Bool
  data : List (List α)
deriving DecidableEq

/-- Outcome of a `refresh` call: normal return, `StopIteration` escaping
from `text_batch`, the IndexError of a boolean mask whose length does not
match the tensor, or fuel exhaustion (the model's stand-in for a loop
that never terminates). -/
inductive RRes (σ : Type) where
  | done (s : σ)
  | exhausted (s : σ)
  | maskErr (s : σ)
  | fuelOut
deriving DecidableEq

/-- The state carried by a `refresh` outcome, with a fallback for
`fuelOut`. -/
def RRes.getState : RRes σ → σ → σ
  | .done s, _ => s
  | .exhausted s, _ => s
  | .maskErr s, _ => s
  | .fuelOut, s₀ => s₀

/-- Map a function over the state carried by a `refresh` outcome. -/
def RRes.mapState (f : σ → τ) : RRes σ → RRes τ
  | .done s => .done (f s)
  | .exhausted s => .exhausted (f s)
  | .maskErr s => .maskErr (f s)
  | .fuelOut => .fuelOut

/-- The ingestion loop of `_refresh_std` (lines 119-131): while the store
holds fewer than `target` vectors, pull a text batch (propagating
exhaustion with the generator drained), append the extracted vectors, and
replace the flags by an all-false vector of the new total length. -/
def refreshLoop (cfg : Cfg) : Nat → St α → RRes (St α)
  | 0, _ => .fuelOut
  | fuel + 1, s =>
    if s.activations.length < cfg.target then
      match text_batch cfg.in_batch_size s.data with
      | none => .exhausted { s with data := [] }
      | some (items, rest) =>
        let new := extractBatch cfg.ctx_len items
        refreshLoop cfg fuel
          { activations := s.activations ++ new
            read := List.replicate (s.activations.length + new.length) false
            data := rest }
    else .done s

/-- `refresh` for a single-tap buffer (`_refresh_std`): compact the store
with the negated flags (Python raises when the mask length differs from
the store length, hence the guard), then run the ingestion loop.  The
fuel `data.length + 1` suffices whenever `in_batch_size ≥ 1`. -/
def refresh (cfg : Cfg) (s : St α) : RRes (St α) :=
  if s.read.length = s.activations.length then
    refreshLoop cfg (s.data.length + 1)
      { s with activations := maskSelect s.activations (boolNot s.read) }
  else .maskErr s

/-- The index selection of `__next__` (line 80):
`unreads[torch.randperm(len(unreads))[:out_batch_size]]`, the prefix of
the drawn permutation mapped through the unconsumed-index tensor.  In
dual-tap mode the same selection is applied to both stores. -/
def sampleSel (cfg : Cfg) (π : Nat → List Nat) (r : List Bool) : List Nat :=
  ((π (falseIdxs r).length).take cfg.out_batch_size).map
    fun j => (falseIdxs r).getD j 0

/-- The sampling half of `__next__` (lines 79-83), after the optional
refresh.  `squeeze()` of a one-element index tensor produces a 0-dim
tensor on which `len` raises, hence the error branch at count 1; the
flags are mutated before the store is indexed, as in the source. -/
def sample (cfg : Cfg) (π : Nat → List Nat) (s : St α) :
    Option (List α) × St α :=
  if (falseIdxs s.read).length = 1 then (none, s)
  else
    match getAll s.activations (sampleSel cfg π s.read) with
    | some vs => (some vs, { s with read := markTrue s.read (sampleSel cfg π s.read) })
    | none => (none, { s with read := markTrue s.read (sampleSel cfg π s.read) })

/-- `__next__` for a single-tap buffer: refresh when the unconsumed count
is below the threshold, then sample.  `π` is the permutation drawn by
`torch.randperm`; a `none` result models an exception escaping the
call. -/
def next_batch (cfg : Cfg) (π : Nat → List Nat) (s : St α) :
    Option (List α) × St α :=
  if countFalse s.read < cfg.threshold then
    match refresh cfg s with
    | .done s₁ => sample cfg π s₁
    | .exhausted s₁ => (none, s₁)
    | .maskErr s₁ => (none, s₁)
    | .fuelOut => (none, s)
  else sample cfg π s

/-- The mutable state of a dual-tap (`io='in_to_out'`) buffer: the two
parallel activation stores, the shared consumed flags, and the remaining
text stream; each item yields a per-token pair (input-tap vector,
output-tap vector). -/
structure DSt (α β : Type) where
  activations_in : List α
  activations_out : List β
  read : List Bool
  data : List (List (α × β))
deriving DecidableEq

/-- `hidden_states_in[attention_mask != 0]` for a batch of items: the
input-tap component of each real-token pair, truncated to `ctx_len`,
concatenated in batch order. -/
def extractBatchIn (ctx_len : Nat) (items : List (List (α × β))) : List α :=
  (items.map fun it => (it.take ctx_len).map Prod.fst).flatten

/-- `hidden_states_out[attention_mask != 0]` for a batch of items. -/
def extractBatchOut (ctx_len : Nat) (items : List (List (α × β))) : List β :=
  (items.map fun it => (it.take ctx_len).map Prod.snd).flatten

/-- The ingestion loop of `_refresh_in_to_out` (lines 140-155): both
stores are extended from the same ingested batch, and the flags are
replaced by an all-false vector sized to the input-side store. -/
def dualRefreshLoop (cfg : Cfg) : Nat → DSt α β → RRes (DSt α β)
  | 0, _ => .fuelOut
  | fuel + 1, s =>
    if s.activations_in.length < cfg.target then
      match text_batch cfg.in_batch_size s.data with
      | none => .exhausted { s with data := [] }
      | some (items, rest) =>
        let ni := extractBatchIn cfg.ctx_len items
        let no_ := extractBatchOut cfg.ctx_len items
        dualRefreshLoop cfg fuel
          { activations_in := s.activations_in ++ ni
            activations_out := s.activations_out ++ no_
            read := List.replicate (s.activations_in.length + ni.length) false
            data := rest }
    else .done s

/-- `refresh` for a dual-tap buffer (`_refresh_in_to_out`): compact both
stores with the same negated flags, then run the ingestion loop.  The
guards mirror the order of the two Python mask-indexing statements: if
the mask fits the input store but not the output store, the input store
has already been reassigned when the second statement raises. -/
def dualRefresh (cfg : Cfg) (s : DSt α β) : RRes (DSt α β) :=
  if s.read.length = s.activations_in.length then
    if s.read.length = s.activations_out.length then
      dualRefreshLoop cfg (s.data.length + 1)
        { s with
            activations_in := maskSelect s.activations_in (boolNot s.read)
            activations_out := maskSelect s.activations_out (boolNot s.read) }
    else .maskErr
      { s with activations_in := maskSelect s.activations_in (boolNot s.read) }
  else .maskErr s

/-- The sampling half of `__next__` in dual-tap mode (lines 79-81, 85):
one shared index set is drawn from the shared flags and applied to both
stores. -/
def dualSample (cfg : Cfg) (π : Nat → List Nat) (s : DSt α β) :
    Option (List α × List β) × DSt α β :=
  if (falseIdxs s.read).length = 1 then (none, s)
  else
    match getAll s.activations_in (sampleSel cfg π s.read),
        getAll s.activations_out (sampleSel cfg π s.read) with
    | some vi, some vo =>
      (some (vi, vo), { s with read := markTrue s.read (sampleSel cfg π s.read) })
    | _, _ => (none, { s with read := markTrue s.read (sampleSel cfg π s.read) })

/-- `__next__` for a dual-tap buffer. -/
def dualNext (cfg : Cfg) (π : Nat → List Nat) (s : DSt α β) :
    Option (List α × List β) × DSt α β :=
  if countFalse s.read < cfg.threshold then
    match dualRefresh cfg s with
    | .done s₁ => dualSample cfg π s₁
    | .exhausted s₁ => (none, s₁)
    | .maskErr s₁ => (none, s₁)
    | .fuelOut => (none, s)
  else dualSample cfg π s

/-- A public operation on a buffer: one `__next__` call (with the
permutation `torch.randperm` will draw) or one manual `refresh()`. -/
inductive BOp where
  | callNext (π : Nat → List Nat)
  | callRefresh

/-- Run a sequence of public operations on a single-tap buffer (a failed
operation leaves the state the exception left behind; `fuelOut` keeps the
previous state). -/
def runSingle (cfg : Cfg) : List BOp → St α → St α
  | [], s => s
  | .callNext π :: ops, s => runSingle cfg ops (next_batch cfg π s).2
  | .callRefresh :: ops, s => runSingle cfg ops ((refresh cfg s).getState s)

/-- Run a sequence of public operations on a dual-tap buffer. -/
def runDual (cfg : Cfg) : List BOp → DSt α β → DSt α β
  | [], s => s
  | .callNext π :: ops, s => runDual cfg ops (dualNext cfg π s).2
  | .callRefresh :: ops, s => runDual cfg ops ((dualRefresh cfg s).getState s)

/-- The state transition of one `__next__` call (the returned batch
discarded). -/
def stepState (cfg : Cfg) (s : St α) (π : Nat → List Nat) : St α :=
  (next_batch cfg π s).2

/-- The buffer state after a sequence of `__next__` calls, one per drawn
permutation. -/
def stateAfter (cfg : Cfg) (πs : List (Nat → List Nat)) (s₀ : St α) : St α :=
  πs.foldl (stepState cfg) s₀

/-- Project a single-tap buffer over pairs onto a dual-tap state: the
two parallel stores are the componentwise images of one paired store.
This is the alignment witness for claim C3. -/
def projDual (s : St (α × β)) : DSt α β :=
  ⟨s.activations.map Prod.fst, s.activations.map Prod.snd, s.read, s.data⟩

/-- The extraction-point handle: the attributes `__init__` reads when a
feature width is not supplied (`none` models a submodule without the
attribute, on which the access raises and the `except` branch runs). -/
structure Submodule where
  in_features : Option Nat
  out_features : Option Nat

/-- The tap mode `io`, one of the strings `'in'`, `'out'`,
`'in_to_out'`. -/
inductive IOMode where
  | tapIn
  | tapOut
  | tapInToOut
deriving DecidableEq

/-- The configuration error `__init__` raises when a needed feature width
is neither supplied nor inferable. -/
inductive ConfigError where
  | valueError
deriving DecidableEq

/-- The empty storage `__init__` creates: the feature widths actually
used for the active tap(s). -/
inductive InitShape where
  | single (feats : Nat)
  | dual (feats_in feats_out : Nat)
deriving DecidableEq

/-- Feature-width resolution of `__init__` (lines 26-53): an explicitly
supplied width wins; otherwise the submodule attribute is consulted; if
neither is available a `ValueError` is raised. -/
def initBuffer (ioMode : IOMode) (in_feats out_feats : Option Nat)
    (sub : Submodule) : Except ConfigError InitShape :=
  match ioMode with
  | .tapIn =>
    match in_feats.orElse (fun _ => sub.in_features) with
    | some d => .ok (.single d)
    | none => .error .valueError
  | .tapOut =>
    match out_feats.orElse (fun _ => sub.out_features) with
    | some d => .ok (.single d)
    | none => .error .valueError
  | .tapInToOut =>
    match in_feats.orElse (fun _ => sub.in_features) with
    | none => .error .valueError
    | some di =>
      match out_feats.orElse (fun _ => sub.out_features) with
      | none => .error .valueError
      | some dout => .ok (.dual di dout)

/-- The literal append step of `_refresh_std` lines 130-131: concatenate
the new vectors, then replace the flag vector by an all-false vector of
the new total length. -/
def appendReset (st : List α × List Bool) (new : List α) :
    List α × List Bool :=
  (st.1 ++ new, List.replicate (st.1.length + new.length) false)

/-- The append step in the spec's preferred formulation: concatenate the
new vectors and extend the existing flags with false entries. -/
def appendExtend (st : List α × List Bool) (new : List α) :
    List α × List Bool :=
  (st.1 ++ new, st.2 ++ List.replicate new.length false)

section Lemmas

variable {α β : Type}

lemma markTrue_nil (r : List Bool) : markTrue r [] = r := rfl

lemma markTrue_cons (r : List Bool) (i : Nat) (sel : List Nat) :
    markTrue r (i :: sel) = markTrue (r.set i true) sel := rfl

lemma falseIdxs_length (r : List Bool) :
    (falseIdxs r).length = countFalse r := by
  induction r with
  | nil => rfl
  | cons b r ih =>
    cases b <;> simp [falseIdxs, countFalse, ih] <;> omega

lemma mem_falseIdxs {r : List Bool} {i : Nat} (h : i ∈ falseIdxs r) :
    i < r.length ∧ r.getD i true = false := by
  induction r generalizing i with
  | nil => simp [falseIdxs] at h
  | cons b r ih =>
    rw [falseIdxs, List.mem_append] at h
    rcases h with h | h
    · cases b with
      | false =>
        simp at h
        subst h
        simp
      | true => simp at h
    · rcases List.mem_map.mp h with ⟨j, hj, rfl⟩
      rcases ih hj with ⟨h₁, h₂⟩
      exact ⟨Nat.succ_lt_succ h₁, by simpa using h₂⟩

lemma falseIdxs_nodup (r : List Bool) : (falseIdxs r).Nodup := by
  induction r with
  | nil => simp [falseIdxs]
  | cons b r ih =>
    rw [falseIdxs]
    refine List.Nodup.append ?_ (ih.map fun a b h => by omega) ?_
    · cases b <;> simp
    · intro i hi hj
      rcases List.mem_map.mp hj with ⟨j, _, rfl⟩
      cases b <;> simp_all

lemma getD_set (xs : List α) (i j : Nat) (a d : α) :
    (xs.set i a).getD j d =
      if j = i ∧ i < xs.length then a else xs.getD j d := by
  induction xs generalizing i j with
  | nil => simp
  | cons x xs ih =>
    cases i with
    | zero => cases j <;> simp
    | succ i =>
      cases j with
      | zero => simp
      | succ j =>
        simp only [List.set_cons_succ, List.getD_cons_succ, ih,
          List.length_cons]
        by_cases h : j = i ∧ i < xs.length
        · rw [if_pos h, if_pos ⟨by omega, by omega⟩]
        · rw [if_neg h, if_neg (by omega)]

lemma markTrue_length (r : List Bool) (sel : List Nat) :
    (markTrue r sel).length = r.length := by
  induction sel generalizing r with
  | nil => rfl
  | cons i sel ih => rw [markTrue_cons, ih, List.length_set]

lemma markTrue_getD_of_not_mem {sel : List Nat} {j : Nat}
    (h : j ∉ sel) (r : List Bool) (d : Bool) :
    (markTrue r sel).getD j d = r.getD j d := by
  induction sel generalizing r with
  | nil => rfl
  | cons i sel ih =>
    rw [markTrue_cons, ih (fun hc => h (List.mem_cons_of_mem _ hc)), getD_set]
    rw [if_neg (by rintro ⟨rfl, -⟩; exact h (List.mem_cons_self _ _))]

lemma markTrue_getD_of_mem {r : List Bool} {sel : List Nat} {j : Nat}
    (hm : j ∈ sel) (hj : j < r.length) :
    (markTrue r sel).getD j true = true := by
  induction sel generalizing r with
  | nil => simp at hm
  | cons i sel ih =>
    rw [markTrue_cons]
    rcases List.mem_cons.mp hm with rfl | hm
    · by_cases hs : j ∈ sel
      · exact ih hs (by simp [hj])
      · rw [markTrue_getD_of_not_mem hs, getD_set, if_pos ⟨rfl, hj⟩]
    · exact ih hm (by simp [hj])

lemma markTrue_monotone {r : List Bool} {j : Nat}
    (h : r.getD j true = true) (sel : List Nat) :
    (markTrue r sel).getD j true = true := by
  induction sel generalizing r with
  | nil => exact h
  | cons i sel ih =>
    rw [markTrue_cons]
    refine ih ?_
    rw [getD_set]
    split
    · rfl
    · exact h

lemma countFalse_set_true {r : List Bool} {i : Nat}
    (hi : i < r.length) (hf : r.getD i true = false) :
    countFalse (r.set i true) + 1 = countFalse r := by
  induction r generalizing i with
  | nil => simp at hi
  | cons b r ih =>
    cases i with
    | zero =>
      rw [List.getD_cons_zero] at hf
      subst hf
      simp [countFalse]
      omega
    | succ i =>
      rw [List.getD_cons_succ] at hf
      rw [List.length_cons, Nat.succ_lt_succ_iff] at hi
      have := ih hi hf
      rw [List.set_cons_succ]
      simp only [countFalse]
      omega

lemma countFalse_markTrue {r : List Bool} {sel : List Nat}
    (hnd : sel.Nodup)
    (hb : ∀ i ∈ sel, i < r.length ∧ r.getD i true = false) :
    countFalse (markTrue r sel) + sel.length = countFalse r := by
  induction sel generalizing r with
  | nil => rfl
  | cons i sel ih =>
    rw [markTrue_cons]
    have hi := hb i (List.mem_cons_self _ _)
    have hstep := countFalse_set_true hi.1 hi.2
    have hrec := ih (r := r.set i true) (List.Nodup.of_cons hnd) (fun j hj => by
      have hji : j ≠ i := fun hc => by
        subst hc
        exact (List.nodup_cons.mp hnd).1 hj
      have hbj := hb j (List.mem_cons_of_mem _ hj)
      refine ⟨by simpa [List.length_set] using hbj.1, ?_⟩
      rw [getD_set, if_neg (by rintro ⟨rfl, -⟩; exact hji rfl)]
      exact hbj.2)
    simp only [List.length_cons]
    omega

lemma getAll_of_bounds {xs : List α} {sel : List Nat}
    (h : ∀ i ∈ sel, i < xs.length) :
    ∃ vs, getAll xs sel = some vs ∧ vs.length = sel.length := by
  induction sel with
  | nil => exact ⟨[], rfl, rfl⟩
  | cons i sel ih =>
    rcases ih (fun j hj => h j (List.mem_cons_of_mem _ hj)) with ⟨vs, hvs, hlen⟩
    have hi : i < xs.length := h i (List.mem_cons_self _ _)
    rcases List.getElem?_eq_some.mpr ⟨hi, rfl⟩ with hget
    exact ⟨xs[i] :: vs, by rw [getAll, hget, hvs], by simp [hlen]⟩

lemma getAll_map (f : α → β) (xs : List α) (sel : List Nat) :
    getAll (xs.map f) sel = (getAll xs sel).map (List.map f) := by
  induction sel with
  | nil => rfl
  | cons i sel ih =>
    rw [getAll, getAll, ih, List.getElem?_map]
    cases xs[i]? <;> cases getAll xs sel <;> simp

lemma maskSelect_length_boolNot {xs : List α} {r : List Bool}
    (h : r.length = xs.length) :
    (maskSelect xs (boolNot r)).length = countFalse r := by
  induction xs generalizing r with
  | nil =>
    cases r with
    | nil => rfl
    | cons b r => simp at h
  | cons x xs ih =>
    cases r with
    | nil => simp at h
    | cons b r =>
      simp only [List.length_cons, Nat.succ_inj'] at h
      cases b <;> simp [maskSelect, boolNot, countFalse, ← ih h, List.zip_cons_cons] <;>
        omega

lemma maskSelect_map (f : α → β) (xs : List α) (m : List Bool) :
    maskSelect (xs.map f) m = (maskSelect xs m).map f := by
  induction xs generalizing m with
  | nil => rfl
  | cons x xs ih =>
    cases m with
    | nil => rfl
    | cons b m =>
      cases b <;> simp [maskSelect, List.zip_cons_cons] <;>
        simpa [maskSelect, List.map_map] using ih m

lemma countFalse_replicate (n : Nat) :
    countFalse (List.replicate n false) = n := by
  induction n with
  | zero => rfl
  | succ n ih =>
    simp [List.replicate_succ, countFalse, ih]
    omega

lemma Cfg.threshold_le_target (cfg : Cfg) : cfg.threshold ≤ cfg.target :=
  Nat.div_le_self _ _

lemma refreshLoop_done {cfg : Cfg} :
    ∀ (fuel : Nat) (s s₁ : St α), refreshLoop cfg fuel s = .done s₁ →
      cfg.target ≤ s₁.activations.length ∧
      (s₁ = s ∨ s₁.read = List.replicate s₁.activations.length false) := by
  intro fuel
  induction fuel with
  | zero => intro s s₁ h; exact absurd h (by simp [refreshLoop])
  | succ fuel ih =>
    intro s s₁ h
    rw [refreshLoop] at h
    by_cases hlt : s.activations.length < cfg.target
    · rw [if_pos hlt] at h
      cases htb : text_batch cfg.in_batch_size s.data with
      | none => rw [htb] at h; exact absurd h (by simp)
      | some p =>
        rw [htb] at h
        have := ih _ _ h
        refine ⟨this.1, Or.inr ?_⟩
        rcases this.2 with rfl | h₂
        · simp [List.length_append]
        · exact h₂
    · rw [if_neg hlt] at h
      cases h
      exact ⟨Nat.le_of_not_lt hlt, Or.inl rfl⟩

lemma refreshLoop_extends {cfg : Cfg} :
    ∀ (fuel : Nat) (s s₁ : St α),
      refreshLoop cfg fuel s = .done s₁ ∨
        refreshLoop cfg fuel s = .exhausted s₁ →
      ∃ tail, s₁.activations = s.activations ++ tail := by
  intro fuel
  induction fuel with
  | zero => intro s s₁ h; rcases h with h | h <;> exact absurd h (by simp [refreshLoop])
  | succ fuel ih =>
    intro s s₁ h
    rw [refreshLoop] at h
    by_cases hlt : s.activations.length < cfg.target
    · rw [if_pos hlt] at h
      cases htb : text_batch cfg.in_batch_size s.data with
      | none =>
        rw [htb] at h
        rcases h with h | h
        · exact absurd h (by simp)
        · cases h; exact ⟨[], (List.append_nil _).symm⟩
      | some p =>
        rw [htb] at h
        rcases ih _ _ h with ⟨tail, htail⟩
        exact ⟨extractBatch cfg.ctx_len p.1 ++ tail, by
          rw [htail]; simp [List.append_assoc]⟩
    · rw [if_neg hlt] at h
      rcases h with h | h
      · cases h; exact ⟨[], (List.append_nil _).symm⟩
      · exact absurd h (by simp)

lemma refreshLoop_exhausted_first {cfg : Cfg} (s : St α) (fuel : Nat)
    (hlt : s.activations.length < cfg.target)
    (hdata : s.data.length < cfg.in_batch_size) :
    refreshLoop cfg (fuel + 1) s = .exhausted { s with data := [] } := by
  rw [refreshLoop, if_pos hlt, text_batch, if_neg (Nat.not_le_of_lt hdata)]

lemma refresh_done_of_wf {cfg : Cfg} {s s₁ : St α}
    (hwf : s.read.length = s.activations.length)
    (hlow : countFalse s.read < cfg.threshold)
    (hdone : refresh cfg s = .done s₁) :
    s₁.read = List.replicate s₁.activations.length false ∧
    cfg.target ≤ s₁.activations.length ∧
    s₁.read.length = s₁.activations.length := by
  rw [refresh, if_pos hwf] at hdone
  have hlen : (maskSelect s.activations (boolNot s.read)).length
      = countFalse s.read := maskSelect_length_boolNot hwf
  have hlt : (maskSelect s.activations (boolNot s.read)).length < cfg.target := by
    rw [hlen]
    exact Nat.lt_of_lt_of_le hlow cfg.threshold_le_target
  rcases refreshLoop_done _ _ _ hdone with ⟨htar, hread⟩
  rcases hread with rfl | hread
  · exact absurd htar (by simpa using Nat.not_le_of_lt hlt)
  · exact ⟨hread, htar, by rw [hread, List.length_replicate]⟩

lemma perm_facts {π : Nat → List Nat} (hπ : ∀ n, (π n).Perm (List.range n))
    (n : Nat) :
    (π n).Nodup ∧ ∀ j ∈ π n, j < n := by
  refine ⟨((hπ n).nodup_iff).mpr (List.nodup_range n), fun j hj => ?_⟩
  exact List.mem_range.mp ((hπ n).mem_iff.mp hj)

lemma sel_spec {π : Nat → List Nat} (hπ : ∀ n, (π n).Perm (List.range n))
    (cfg : Cfg) (r : List Bool) :
    (sampleSel cfg π r).Nodup ∧
    (sampleSel cfg π r).length = min cfg.out_batch_size (countFalse r) ∧
    (∀ i ∈ sampleSel cfg π r, i < r.length ∧ r.getD i true = false) := by
  rw [sampleSel]
  set out := cfg.out_batch_size with hout
  set unreads := falseIdxs r with hu
  set n := unreads.length with hn
  have hperm := perm_facts hπ n
  have htk_nd : ((π n).take out).Nodup :=
    hperm.1.sublist (List.take_sublist _ _)
  have htk_lt : ∀ j ∈ (π n).take out, j < n := fun j hj =>
    hperm.2 j (List.mem_of_mem_take hj)
  have hget : ∀ j (h : j < n), unreads.getD j 0 = unreads.get ⟨j, h⟩ := by
    intro j h
    exact List.getD_eq_getElem _ _ h
  refine ⟨?_, ?_, ?_⟩
  · refine List.Nodup.map_on ?_ htk_nd
    intro j₁ h₁ j₂ h₂ heq
    have hl₁ := htk_lt j₁ h₁
    have hl₂ := htk_lt j₂ h₂
    rw [hget j₁ hl₁, hget j₂ hl₂] at heq
    have := (List.Nodup.get_inj_iff (falseIdxs_nodup r)).mp heq
    exact Fin.val_eq_of_eq this
  · have hπlen : (π n).length = n := ((hπ n).length_eq).trans (List.length_range n)
    rw [List.length_map, List.length_take, hπlen, ← falseIdxs_length, hn]
  · intro i hi
    rcases List.mem_map.mp hi with ⟨j, hj, rfl⟩
    have hl := htk_lt j hj
    rw [hget j hl]
    exact mem_falseIdxs (List.get_mem _ _ _)

lemma sample_spec {cfg : Cfg} {π : Nat → List Nat}
    (hπ : ∀ n, (π n).Perm (List.range n)) (s : St α)
    (hwf : s.read.length = s.activations.length)
    (hne1 : countFalse s.read ≠ 1) :
    ∃ sel vs,
      sample cfg π s = (some vs, { s with read := markTrue s.read sel }) ∧
      sel.Nodup ∧
      sel.length = min cfg.out_batch_size (countFalse s.read) ∧
      (∀ i ∈ sel, i < s.activations.length ∧ s.read.getD i true = false) ∧
      getAll s.activations sel = some vs ∧
      vs.length = sel.length ∧
      countFalse (markTrue s.read sel) + sel.length = countFalse s.read ∧
      (∀ j, (markTrue s.read sel).getD j true = true ↔
        (s.read.getD j true = true ∨ j ∈ sel)) := by
  rcases sel_spec hπ cfg s.read with ⟨hnd, hlen, hmem⟩
  set sel := sampleSel cfg π s.read with hsel
  have hbounds : ∀ i ∈ sel, i < s.activations.length := fun i hi =>
    hwf ▸ (hmem i hi).1
  rcases getAll_of_bounds hbounds with ⟨vs, hvs, hvlen⟩
  have h1 : ¬ (falseIdxs s.read).length = 1 := by
    rw [falseIdxs_length]
    exact hne1
  refine ⟨sel, vs, ?_, hnd, hlen, fun i hi => ⟨hbounds i hi, (hmem i hi).2⟩,
    hvs, hvlen, ?_, ?_⟩
  · rw [sample, if_neg h1, ← hsel, hvs]
  · exact countFalse_markTrue hnd (fun i hi => ⟨hwf ▸ hbounds i hi, (hmem i hi).2⟩)
  · intro j
    constructor
    · intro hj
      by_cases hs : j ∈ sel
      · exact Or.inr hs
      · exact Or.inl (by rwa [markTrue_getD_of_not_mem hs] at hj)
    · rintro (hj | hj)
      · exact markTrue_monotone hj sel
      · exact markTrue_getD_of_mem hj (hwf ▸ hbounds j hj)

lemma sample_success_shape {cfg : Cfg} {π : Nat → List Nat} {s : St α}
    {vs : List α} {s' : St α} (h : sample cfg π s = (some vs, s')) :
    s'.activations = s.activations ∧ s'.read.length = s.read.length ∧
    s'.data = s.data := by
  rw [sample] at h
  by_cases h1 : (falseIdxs s.read).length = 1
  · rw [if_pos h1] at h
    exact absurd (congrArg Prod.fst h) (by simp)
  · rw [if_neg h1] at h
    cases hg : getAll s.activations (sampleSel cfg π s.read) with
    | none =>
      rw [hg] at h
      exact absurd (congrArg Prod.fst h) (by simp)
    | some vs' =>
      rw [hg] at h
      rw [← ((Prod.mk.injEq _ _ _ _).mp h).2]
      exact ⟨rfl, markTrue_length _ _, rfl⟩

lemma sample_succ_post {cfg : Cfg} {π : Nat → List Nat}
    (hπ : ∀ n, (π n).Perm (List.range n)) (s : St α)
    (hwf : s.read.length = s.activations.length)
    {vs : List α} {s' : St α} (h : sample cfg π s = (some vs, s')) :
    countFalse s'.read + min cfg.out_batch_size (countFalse s.read)
      = countFalse s.read := by
  by_cases hne1 : countFalse s.read = 1
  · exfalso
    have h1 : (falseIdxs s.read).length = 1 := by rw [falseIdxs_length, hne1]
    rw [sample, if_pos h1] at h
    exact absurd (congrArg Prod.fst h) (by simp)
  · rcases sample_spec hπ s hwf hne1 with
      ⟨sel, vs', heq, hnd, hlen, hmem, hget, hvlen, hcnt, hiff⟩
    rw [heq] at h
    have hs' := ((Prod.mk.injEq _ _ _ _).mp h).2
    rw [← hs']
    simp only
    omega

end Lemmas

section Claims

variable {α β : Type}

/-- C4 counterexample: in the scenario `n_ctxs=1, ctx_len=4,
in_batch_size=2, out_batch_size=2`, io=`out`, with a text source of 4
items of 4 tokens each, the first `next_batch` call fills the buffer
with 8 vectors (one ingestion batch of 2 items already meets the target
occupancy of 4) and leaves 6 unconsumed — not 16 and 14 as claimed. -/
theorem scenario_first_call_fills_8_not_16 :
    (next_batch ⟨1, 4, 2, 2⟩ (fun n => List.range n)
      ⟨[], [], [[0, 1, 2, 3], [4, 5, 6, 7], [8, 9, 10, 11],
        [12, 13, 14, 15]]⟩).2.activations.length = 8 ∧
    ¬ (next_batch ⟨1, 4, 2, 2⟩ (fun n => List.range n)
      ⟨[], [], [[0, 1, 2, 3], [4, 5, 6, 7], [8, 9, 10, 11],
        [12, 13, 14, 15]]⟩).2.activations.length = 16 ∧
    countFalse (next_batch ⟨1, 4, 2, 2⟩ (fun n => List.range n)
      ⟨[], [], [[0, 1, 2, 3], [4, 5, 6, 7], [8, 9, 10, 11],
        [12, 13, 14, 15]]⟩).2.read = 6 ∧
    ¬ countFalse (next_batch ⟨1, 4, 2, 2⟩ (fun n => List.range n)
      ⟨[], [], [[0, 1, 2, 3], [4, 5, 6, 7], [8, 9, 10, 11],
        [12, 13, 14, 15]]⟩).2.read = 14 := by
  decide

/-- C4 amended: in that scenario the first `next_batch` call triggers
exactly one refill, which performs a single ingestion of
`in_batch_size = 2` items producing 8 vectors (reaching the target
occupancy 4), returns 2 of them, and leaves 6 unconsumed with the other
2 items still unread in the text source. -/
theorem scenario_first_call_exact :
    next_batch ⟨1, 4, 2, 2⟩ (fun n => List.range n)
      ⟨[], [], [[0, 1, 2, 3], [4, 5, 6, 7], [8, 9, 10, 11],
        [12, 13, 14, 15]]⟩
    = (some [0, 1],
       ⟨[0, 1, 2, 3, 4, 5, 6, 7],
        [true, true, false, false, false, false, false, false],
        [[8, 9, 10, 11], [12, 13, 14, 15]]⟩) ∧
    countFalse [true, true, false, false, false, false, false, false] = 6 := by
  decide

/-- C10: when `next_batch` runs with exactly one unconsumed vector and the
refill threshold does not trigger a refresh (threshold ≤ 1), the
`squeeze()` of the one-element index tensor is 0-dimensional, `len`
raises, and the call errors out with the state unchanged instead of
returning the remaining vector. -/
theorem next_batch_errors_on_single_unread (cfg : Cfg) (π : Nat → List Nat)
    (s : St α) (hc : countFalse s.read = 1) (ht : cfg.threshold ≤ 1) :
    next_batch cfg π s = (none, s) := by
  have h1 : (falseIdxs s.read).length = 1 := by rw [falseIdxs_length, hc]
  rw [next_batch, if_neg (by omega), sample, if_pos h1]

theorem next_batch_errors_on_single_unread_witness :
    next_batch ⟨1, 1, 1, 2⟩ (fun n => List.range n)
      (⟨[5], [false], []⟩ : St Nat)
      = (none, ⟨[5], [false], []⟩) :=
  next_batch_errors_on_single_unread ⟨1, 1, 1, 2⟩ (fun n => List.range n)
    ⟨[5], [false], []⟩ (by decide) (by decide)

/-- C9: at construction, a feature width for an active tap that is
neither supplied nor inferable from the extraction point makes
`__init__` raise `ValueError`; a successful construction always takes
each active width from the explicit argument or the submodule attribute,
never from a silent default. -/
theorem init_requires_feats :
    (∀ (ioMode : IOMode) (outf : Option Nat) (sub : Submodule),
      (ioMode = .tapIn ∨ ioMode = .tapInToOut) →
      sub.in_features = none →
      initBuffer ioMode none outf sub = .error .valueError) ∧
    (∀ (ioMode : IOMode) (inf : Option Nat) (sub : Submodule),
      (ioMode = .tapOut ∨ ioMode = .tapInToOut) →
      sub.out_features = none →
      initBuffer ioMode inf none sub = .error .valueError) ∧
    (∀ (inf outf : Option Nat) (sub : Submodule) (d : Nat),
      initBuffer .tapIn inf outf sub = .ok (.single d) →
      inf = some d ∨ (inf = none ∧ sub.in_features = some d)) ∧
    (∀ (inf outf : Option Nat) (sub : Submodule) (d : Nat),
      initBuffer .tapOut inf outf sub = .ok (.single d) →
      outf = some d ∨ (outf = none ∧ sub.out_features = some d)) ∧
    (∀ (inf outf : Option Nat) (sub : Submodule) (di dout : Nat),
      initBuffer .tapInToOut inf outf sub = .ok (.dual di dout) →
      (inf = some di ∨ (inf = none ∧ sub.in_features = some di)) ∧
      (outf = some dout ∨ (outf = none ∧ sub.out_features = some dout))) := by
  refine ⟨?_, ?_, ?_, ?_, ?_⟩
  · rintro ioMode outf sub (rfl | rfl) hin <;>
      simp [initBuffer, Option.orElse, hin]
  · rintro ioMode inf sub (rfl | rfl) hout
    · simp [initBuffer, Option.orElse, hout]
    · cases inf <;> cases hsi : sub.in_features <;>
        simp [initBuffer, Option.orElse, hout, hsi]
  · intro inf outf sub d h
    cases inf with
    | some v => simp [initBuffer, Option.orElse] at h; simp_all
    | none =>
      cases hsi : sub.in_features <;>
        simp [initBuffer, Option.orElse, hsi] at h <;> simp_all
  · intro inf outf sub d h
    cases outf with
    | some v => simp [initBuffer, Option.orElse] at h; simp_all
    | none =>
      cases hso : sub.out_features <;>
        simp [initBuffer, Option.orElse, hso] at h <;> simp_all
  · intro inf outf sub di dout h
    cases inf <;> cases outf <;> cases hsi : sub.in_features <;>
      cases hso : sub.out_features <;>
      simp [initBuffer, Option.orElse, hsi, hso] at h <;> simp_all

theorem init_requires_feats_witness :
    initBuffer .tapIn none none ⟨none, some 4⟩ = .error .valueError ∧
    initBuffer .tapInToOut (some 3) none ⟨none, none⟩ = .error .valueError :=
  ⟨init_requires_feats.1 .tapIn none ⟨none, some 4⟩ (Or.inl rfl) rfl,
   init_requires_feats.2.1 .tapInToOut (some 3) ⟨none, none⟩ (Or.inr rfl) rfl⟩

/-- C7 counterexample: with the buffer already at target occupancy, a
`refresh` against a text source holding fewer than one ingestion batch
returns normally instead of raising the exhaustion condition — the
ingestion loop body never runs, so `text_batch` is never called. -/
theorem refresh_no_raise_when_full :
    ([] : List (List Nat)).length < (⟨1, 1, 1, 1⟩ : Cfg).in_batch_size ∧
    refresh ⟨1, 1, 1, 1⟩ (⟨[0], [false], []⟩ : St Nat)
      = .done ⟨[0], [false], []⟩ := by
  decide

/-- C7 amended: if the text source has fewer than `in_batch_size` items
remaining AND the post-compaction occupancy is below target, `refresh`
raises the exhaustion condition, and Storage afterwards holds exactly
the compacted vectors — no partially-appended vectors from the failed
ingestion (if the buffer is at or above target after compaction, the
loop never runs and `refresh` returns normally instead). -/
theorem refresh_exhaustion_propagates {cfg : Cfg} (s : St α)
    (hwf : s.read.length = s.activations.length)
    (hdata : s.data.length < cfg.in_batch_size)
    (hlt : (maskSelect s.activations (boolNot s.read)).length < cfg.target) :
    refresh cfg s
      = .exhausted ⟨maskSelect s.activations (boolNot s.read), s.read, []⟩ := by
  rw [refresh, if_pos hwf]
  exact refreshLoop_exhausted_first _ _ hlt hdata

theorem refresh_exhaustion_propagates_witness :
    refresh ⟨1, 2, 1, 1⟩ (⟨[0, 1], [true, false], []⟩ : St Nat)
      = .exhausted ⟨[1], [true, false], []⟩ :=
  refresh_exhaustion_propagates ⟨[0, 1], [true, false], []⟩
    (by decide) (by decide) (by decide)

lemma foldl_reset_extend_agree :
    ∀ (bs : List (List α)) (a : List α),
      List.foldl appendReset (a, List.replicate a.length false) bs =
      List.foldl appendExtend (a, List.replicate a.length false) bs := by
  intro bs
  induction bs with
  | nil => intro a; rfl
  | cons b bs ih =>
    intro a
    have h₁ : appendReset (a, List.replicate a.length false) b
        = (a ++ b, List.replicate (a ++ b).length false) := by
      simp [appendReset, List.length_append]
    have h₂ : appendExtend (a, List.replicate a.length false) b
        = (a ++ b, List.replicate (a ++ b).length false) := by
      show (a ++ b, List.replicate a.length false ++ List.replicate b.length false) = _
      rw [List.length_append, List.replicate_add]
    rw [List.foldl_cons, List.foldl_cons, h₁, h₂, ih]

/-- C8: within a refresh cycle, the source's flag handling (replace the
flags by an all-false vector of the new total length after each append)
and the spec's formulation (extend the compacted flags — all false after
compaction — with false entries) produce identical states after every
append: for every nonempty prefix of the sequence of appended batches,
starting the reset variant from any pre-compaction flag vector and the
extend variant from the compacted all-false flags yields the same
(store, flags) state. -/
theorem appendReset_eq_appendExtend (a₀ : List α) (r₀ : List Bool)
    (b : List α) (batches : List (List α)) (k : Nat) :
    List.foldl appendReset (a₀, r₀) ((b :: batches).take (k + 1)) =
    List.foldl appendExtend (a₀, List.replicate a₀.length false)
      ((b :: batches).take (k + 1)) := by
  rw [List.take_succ_cons, List.foldl_cons, List.foldl_cons]
  have h₁ : appendReset (a₀, r₀) b
      = (a₀ ++ b, List.replicate (a₀ ++ b).length false) := by
    simp [appendReset, List.length_append]
  have h₂ : appendExtend (a₀, List.replicate a₀.length false) b
      = (a₀ ++ b, List.replicate (a₀ ++ b).length false) := by
    show (a₀ ++ b, List.replicate a₀.length false ++ List.replicate b.length false) = _
    rw [List.length_append, List.replicate_add]
  rw [h₁, h₂]
  exact foldl_reset_extend_agree _ _

/-- C5 counterexample: a `next_batch` call from a state with unconsumed
count exactly at the threshold does not trigger a refill, consumes
`out_batch_size` vectors, and returns with the unconsumed count strictly
below the threshold (here 0 < 2), refuting the claimed invariant for
all reachable pre-call states. -/
theorem occupancy_can_drop_below_threshold :
    next_batch ⟨1, 4, 2, 2⟩ (fun n => List.range n)
      (⟨[0, 1], [false, false], []⟩ : St Nat)
      = (some [0, 1], ⟨[0, 1], [true, true], []⟩) ∧
    countFalse [true, true] < Cfg.threshold ⟨1, 4, 2, 2⟩ := by
  decide

/-- C5 amended: immediately after every `next_batch` call that returns a
batch, the unconsumed count is at least `threshold - out_batch_size`
(and at least `target - out_batch_size` when a refill was triggered);
the count can fall below the threshold itself by up to one batch. -/
theorem next_batch_occupancy_lower_bound {cfg : Cfg} {π : Nat → List Nat}
    (hπ : ∀ n, (π n).Perm (List.range n)) (s : St α)
    (hwf : s.read.length = s.activations.length)
    {vs : List α} {s' : St α}
    (hsucc : next_batch cfg π s = (some vs, s')) :
    cfg.threshold - cfg.out_batch_size ≤ countFalse s'.read ∧
    (countFalse s.read < cfg.threshold →
      cfg.target - cfg.out_batch_size ≤ countFalse s'.read) := by
  rw [next_batch] at hsucc
  by_cases hlow : countFalse s.read < cfg.threshold
  · rw [if_pos hlow] at hsucc
    cases hr : refresh cfg s with
    | done s₁ =>
      rw [hr] at hsucc
      rcases refresh_done_of_wf hwf hlow hr with ⟨hrep, htar, hwf₁⟩
      have hc₁ : countFalse s₁.read = s₁.activations.length := by
        rw [hrep, countFalse_replicate]
      have hpost := sample_succ_post hπ s₁ hwf₁ hsucc
      have hth := cfg.threshold_le_target
      constructor
      · omega
      · intro
        omega
    | exhausted s₁ => rw [hr] at hsucc; exact absurd (congrArg Prod.fst hsucc) (by simp)
    | maskErr s₁ => rw [hr] at hsucc; exact absurd (congrArg Prod.fst hsucc) (by simp)
    | fuelOut => rw [hr] at hsucc; exact absurd (congrArg Prod.fst hsucc) (by simp)
  · rw [if_neg hlow] at hsucc
    have hpost := sample_succ_post hπ s hwf hsucc
    constructor
    · omega
    · intro h
      exact absurd h hlow

theorem next_batch_occupancy_lower_bound_witness :
    Cfg.threshold ⟨1, 4, 2, 1⟩ - Cfg.out_batch_size ⟨1, 4, 2, 1⟩
      ≤ countFalse [true, false, false] ∧
    (countFalse [false, false, false] < Cfg.threshold ⟨1, 4, 2, 1⟩ →
      Cfg.target ⟨1, 4, 2, 1⟩ - Cfg.out_batch_size ⟨1, 4, 2, 1⟩
        ≤ countFalse [true, false, false]) := by
  have h := @next_batch_occupancy_lower_bound Nat ⟨1, 4, 2, 1⟩
    (fun n => List.range n) (fun n => List.Perm.refl _)
    ⟨[7, 8, 9], [false, false, false], []⟩ (by decide)
    [7] ⟨[7, 8, 9], [true, false, false], []⟩ (by decide)
  exact h

lemma extractBatchIn_eq (ctx : Nat) (items : List (List (α × β))) :
    extractBatchIn ctx items = (extractBatch ctx items).map Prod.fst := by
  rw [extractBatchIn, extractBatch, List.map_flatten, List.map_map]
  rfl

lemma extractBatchOut_eq (ctx : Nat) (items : List (List (α × β))) :
    extractBatchOut ctx items = (extractBatch ctx items).map Prod.snd := by
  rw [extractBatchOut, extractBatch, List.map_flatten, List.map_map]
  rfl

lemma extractBatch_in_out_length (ctx : Nat) (items : List (List (α × β))) :
    (extractBatchIn ctx items).length = (extractBatchOut ctx items).length := by
  rw [extractBatchIn_eq, extractBatchOut_eq, List.length_map, List.length_map]

lemma dualRefreshLoop_done {cfg : Cfg} :
    ∀ (fuel : Nat) (s s₁ : DSt α β), dualRefreshLoop cfg fuel s = .done s₁ →
      s.activations_in.length = s.activations_out.length →
      cfg.target ≤ s₁.activations_in.length ∧
      s₁.activations_in.length = s₁.activations_out.length ∧
      (s₁ = s ∨ s₁.read = List.replicate s₁.activations_in.length false) := by
  intro fuel
  induction fuel with
  | zero => intro s s₁ h _; exact absurd h (by simp [dualRefreshLoop])
  | succ fuel ih =>
    intro s s₁ h heq
    rw [dualRefreshLoop] at h
    by_cases hlt : s.activations_in.length < cfg.target
    · rw [if_pos hlt] at h
      cases htb : text_batch cfg.in_batch_size s.data with
      | none => rw [htb] at h; exact absurd h (by simp)
      | some p =>
        rw [htb] at h
        have := ih _ _ h
          (by simp [List.length_append, heq, extractBatch_in_out_length])
        refine ⟨this.1, this.2.1, Or.inr ?_⟩
        rcases this.2.2 with rfl | h₂
        · simp [List.length_append]
        · exact h₂
    · rw [if_neg hlt] at h
      cases h
      exact ⟨Nat.le_of_not_lt hlt, heq, Or.inl rfl⟩

lemma dualRefresh_done_of_wf {cfg : Cfg} {s s₁ : DSt α β}
    (hwfi : s.read.length = s.activations_in.length)
    (hwfo : s.read.length = s.activations_out.length)
    (hlow : countFalse s.read < cfg.threshold)
    (hdone : dualRefresh cfg s = .done s₁) :
    s₁.read = List.replicate s₁.activations_in.length false ∧
    cfg.target ≤ s₁.activations_in.length ∧
    s₁.read.length = s₁.activations_in.length ∧
    s₁.activations_in.length = s₁.activations_out.length := by
  rw [dualRefresh, if_pos hwfi, if_pos hwfo] at hdone
  have hleni : (maskSelect s.activations_in (boolNot s.read)).length
      = countFalse s.read := maskSelect_length_boolNot hwfi
  have hleno : (maskSelect s.activations_out (boolNot s.read)).length
      = countFalse s.read := maskSelect_length_boolNot hwfo
  rcases dualRefreshLoop_done _ _ _ hdone (by rw [hleni, hleno]) with
    ⟨htar, hinout, hcase⟩
  rcases hcase with rfl | hrep
  · exact absurd htar (by
      simp only [hleni]
      exact Nat.not_le_of_lt (Nat.lt_of_lt_of_le hlow cfg.threshold_le_target))
  · exact ⟨hrep, htar, by rw [hrep, List.length_replicate], hinout⟩

lemma dualSample_spec {cfg : Cfg} {π : Nat → List Nat}
    (hπ : ∀ n, (π n).Perm (List.range n)) (s : DSt α β)
    (hwfi : s.read.length = s.activations_in.length)
    (hwfo : s.read.length = s.activations_out.length)
    (hne1 : countFalse s.read ≠ 1) :
    ∃ sel vi vo,
      dualSample cfg π s = (some (vi, vo), { s with read := markTrue s.read sel }) ∧
      sel.Nodup ∧
      sel.length = min cfg.out_batch_size (countFalse s.read) ∧
      (∀ i ∈ sel, i < s.activations_in.length ∧ i < s.activations_out.length ∧
        s.read.getD i true = false) ∧
      getAll s.activations_in sel = some vi ∧
      getAll s.activations_out sel = some vo ∧
      countFalse (markTrue s.read sel) + sel.length = countFalse s.read ∧
      (∀ j, (markTrue s.read sel).getD j true = true ↔
        (s.read.getD j true = true ∨ j ∈ sel)) := by
  rcases sel_spec hπ cfg s.read with ⟨hnd, hlen, hmem⟩
  set sel := sampleSel cfg π s.read with hsel
  have hbi : ∀ i ∈ sel, i < s.activations_in.length := fun i hi =>
    hwfi ▸ (hmem i hi).1
  have hbo : ∀ i ∈ sel, i < s.activations_out.length := fun i hi =>
    hwfo ▸ (hmem i hi).1
  rcases getAll_of_bounds hbi with ⟨vi, hvi, hvileni⟩
  rcases getAll_of_bounds hbo with ⟨vo, hvo, hvoleno⟩
  have h1 : ¬ (falseIdxs s.read).length = 1 := by
    rw [falseIdxs_length]
    exact hne1
  refine ⟨sel, vi, vo, ?_, hnd, hlen,
    fun i hi => ⟨hbi i hi, hbo i hi, (hmem i hi).2⟩, hvi, hvo, ?_, ?_⟩
  · rw [dualSample, if_neg h1, ← hsel, hvi, hvo]
  · exact countFalse_markTrue hnd hmem
  · intro j
    constructor
    · intro hj
      by_cases hs : j ∈ sel
      · exact Or.inr hs
      · exact Or.inl (by rwa [markTrue_getD_of_not_mem hs] at hj)
    · rintro (hj | hj)
      · exact markTrue_monotone hj sel
      · exact markTrue_getD_of_mem hj (hmem j hj).1

/-- C6 counterexample: a reachable trace (construct, one `next_batch`,
then a manual `refresh` while occupancy is at/above target) after which
the consumed-flag collection has length 8 while its paired Buffer has
length 7 — the ingestion loop of `_refresh_std` never ran, so the flags
were never resized after compaction. -/
theorem refresh_can_desync_flag_length :
    ((refresh ⟨1, 4, 2, 1⟩ ((next_batch ⟨1, 4, 2, 1⟩ (fun n => List.range n)
        (⟨[], [], [[0, 1, 2, 3], [4, 5, 6, 7]]⟩ : St Nat)).2)).getState
      ((next_batch ⟨1, 4, 2, 1⟩ (fun n => List.range n)
        (⟨[], [], [[0, 1, 2, 3], [4, 5, 6, 7]]⟩ : St Nat)).2)).read.length = 8 ∧
    ((refresh ⟨1, 4, 2, 1⟩ ((next_batch ⟨1, 4, 2, 1⟩ (fun n => List.range n)
        (⟨[], [], [[0, 1, 2, 3], [4, 5, 6, 7]]⟩ : St Nat)).2)).getState
      ((next_batch ⟨1, 4, 2, 1⟩ (fun n => List.range n)
        (⟨[], [], [[0, 1, 2, 3], [4, 5, 6, 7]]⟩ : St Nat)).2)).activations.length
      = 7 ∧
    ¬ ((refresh ⟨1, 4, 2, 1⟩ ((next_batch ⟨1, 4, 2, 1⟩ (fun n => List.range n)
        (⟨[], [], [[0, 1, 2, 3], [4, 5, 6, 7]]⟩ : St Nat)).2)).getState
      ((next_batch ⟨1, 4, 2, 1⟩ (fun n => List.range n)
        (⟨[], [], [[0, 1, 2, 3], [4, 5, 6, 7]]⟩ : St Nat)).2)).read.length
      = ((refresh ⟨1, 4, 2, 1⟩ ((next_batch ⟨1, 4, 2, 1⟩ (fun n => List.range n)
        (⟨[], [], [[0, 1, 2, 3], [4, 5, 6, 7]]⟩ : St Nat)).2)).getState
      ((next_batch ⟨1, 4, 2, 1⟩ (fun n => List.range n)
        (⟨[], [], [[0, 1, 2, 3], [4, 5, 6, 7]]⟩ : St Nat)).2)).activations.length := by
  decide

/-- C6 amended: the consumed-flag collection has the same length as its
paired Buffer after construction, after every `next_batch` that returns
a batch, and after every `refresh` that returns normally from a
post-compaction occupancy below target; a refresh whose ingestion loop
never runs (manual refresh at/above target, or exhaustion before the
first append) can leave the flags longer than the Buffer. -/
theorem read_length_invariant :
    (∀ (data : List (List α)),
      (St.mk [] [] data).read.length = (St.mk [] [] data).activations.length) ∧
    (∀ (cfg : Cfg) (π : Nat → List Nat) (s : St α) (vs : List α) (s' : St α),
      s.read.length = s.activations.length →
      next_batch cfg π s = (some vs, s') →
      s'.read.length = s'.activations.length) ∧
    (∀ (cfg : Cfg) (s s' : St α),
      s.read.length = s.activations.length →
      (maskSelect s.activations (boolNot s.read)).length < cfg.target →
      refresh cfg s = .done s' →
      s'.read.length = s'.activations.length) := by
  refine ⟨fun data => rfl, ?_, ?_⟩
  · intro cfg π s vs s' hwf hnb
    rw [next_batch] at hnb
    by_cases hlow : countFalse s.read < cfg.threshold
    · rw [if_pos hlow] at hnb
      cases hr : refresh cfg s with
      | done s₁ =>
        rw [hr] at hnb
        rcases refresh_done_of_wf hwf hlow hr with ⟨hrep, htar, hwf₁⟩
        rcases sample_success_shape hnb with ⟨hacts, hlen, hdata⟩
        rw [hlen, hwf₁, hacts]
      | exhausted s₁ =>
        rw [hr] at hnb
        exact absurd (congrArg Prod.fst hnb) (by simp)
      | maskErr s₁ =>
        rw [hr] at hnb
        exact absurd (congrArg Prod.fst hnb) (by simp)
      | fuelOut =>
        rw [hr] at hnb
        exact absurd (congrArg Prod.fst hnb) (by simp)
    · rw [if_neg hlow] at hnb
      rcases sample_success_shape hnb with ⟨hacts, hlen, hdata⟩
      rw [hlen, hwf, hacts]
  · intro cfg s s' hwf hlt hr
    rw [refresh, if_pos hwf] at hr
    rcases refreshLoop_done _ _ _ hr with ⟨htar, hcase⟩
    rcases hcase with rfl | hrep
    · exact absurd htar (by simpa using Nat.not_le_of_lt hlt)
    · rw [hrep, List.length_replicate]

theorem read_length_invariant_witness :
    (⟨[0, 1, 2, 3, 4, 5, 6, 7],
      [true, true, false, false, false, false, false, false],
      [[8, 9, 10, 11], [12, 13, 14, 15]]⟩ : St Nat).read.length
    = (⟨[0, 1, 2, 3, 4, 5, 6, 7],
      [true, true, false, false, false, false, false, false],
      [[8, 9, 10, 11], [12, 13, 14, 15]]⟩ : St Nat).activations.length :=
  read_length_invariant.2.1 ⟨1, 4, 2, 2⟩ (fun n => List.range n)
    ⟨[], [], [[0, 1, 2, 3], [4, 5, 6, 7], [8, 9, 10, 11], [12, 13, 14, 15]]⟩
    [0, 1]
    ⟨[0, 1, 2, 3, 4, 5, 6, 7],
      [true, true, false, false, false, false, false, false],
      [[8, 9, 10, 11], [12, 13, 14, 15]]⟩
    (by decide) (by decide)

/-- C1 counterexample: a `next_batch` call whose post-refill unconsumed
count is exactly 1 (reachable whenever the threshold is ≤ 1) returns an
error instead of the promised min(out_batch_size, 1) = 1 vectors, so the
contract does not hold for every call. -/
theorem next_batch_contract_fails_at_count_one :
    (next_batch ⟨1, 1, 1, 2⟩ (fun n => List.range n)
      (⟨[3, 4], [true, false], []⟩ : St Nat)).1 = none ∧
    min (Cfg.out_batch_size ⟨1, 1, 1, 2⟩) (countFalse [true, false]) = 1 := by
  decide

/-- C1 amended: for every `next_batch` call whose post-refill unconsumed
count is not exactly 1 (at count 1 the call errors, see the squeeze
failure): if the unconsumed count is below the refill threshold the
refresh runs first; then, for the drawn permutation, the call selects,
without replacement, min(out_batch_size, unconsumed count) distinct
indices from the current unconsumed set, marks exactly those indices
consumed, and returns their vectors; in dual-tap mode the same index set
is applied to both Buffers and the aligned pair of vectors is
returned. -/
theorem next_batch_contract :
    (∀ (cfg : Cfg) (π : Nat → List Nat), (∀ n, (π n).Perm (List.range n)) →
      ∀ (s s₁ : St α), s.read.length = s.activations.length →
      ((countFalse s.read < cfg.threshold ∧ refresh cfg s = .done s₁) ∨
        (¬ countFalse s.read < cfg.threshold ∧ s₁ = s)) →
      countFalse s₁.read ≠ 1 →
      ∃ sel vs,
        next_batch cfg π s = (some vs, { s₁ with read := markTrue s₁.read sel }) ∧
        sel.Nodup ∧
        sel.length = min cfg.out_batch_size (countFalse s₁.read) ∧
        (∀ i ∈ sel, i < s₁.activations.length ∧ s₁.read.getD i true = false) ∧
        getAll s₁.activations sel = some vs ∧
        (∀ j, (markTrue s₁.read sel).getD j true = true ↔
          (s₁.read.getD j true = true ∨ j ∈ sel))) ∧
    (∀ (cfg : Cfg) (π : Nat → List Nat), (∀ n, (π n).Perm (List.range n)) →
      ∀ (d d₁ : DSt α β),
      d.read.length = d.activations_in.length →
      d.read.length = d.activations_out.length →
      ((countFalse d.read < cfg.threshold ∧ dualRefresh cfg d = .done d₁) ∨
        (¬ countFalse d.read < cfg.threshold ∧ d₁ = d)) →
      countFalse d₁.read ≠ 1 →
      ∃ sel vi vo,
        dualNext cfg π d
          = (some (vi, vo), { d₁ with read := markTrue d₁.read sel }) ∧
        sel.Nodup ∧
        sel.length = min cfg.out_batch_size (countFalse d₁.read) ∧
        (∀ i ∈ sel, i < d₁.activations_in.length ∧
          i < d₁.activations_out.length ∧ d₁.read.getD i true = false) ∧
        getAll d₁.activations_in sel = some vi ∧
        getAll d₁.activations_out sel = some vo ∧
        (∀ j, (markTrue d₁.read sel).getD j true = true ↔
          (d₁.read.getD j true = true ∨ j ∈ sel))) := by
  constructor
  · intro cfg π hπ s s₁ hwf hstep hne1
    rcases hstep with ⟨hlow, hr⟩ | ⟨hhigh, rfl⟩
    · rcases refresh_done_of_wf hwf hlow hr with ⟨hrep, htar, hwf₁⟩
      rcases sample_spec hπ s₁ hwf₁ hne1 with
        ⟨sel, vs, heq, hnd, hlen, hmem, hget, hvlen, hcnt, hiff⟩
      exact ⟨sel, vs, by rw [next_batch, if_pos hlow, hr]; exact heq,
        hnd, hlen, hmem, hget, hiff⟩
    · rcases sample_spec hπ s₁ hwf hne1 with
        ⟨sel, vs, heq, hnd, hlen, hmem, hget, hvlen, hcnt, hiff⟩
      exact ⟨sel, vs, by rw [next_batch, if_neg hhigh]; exact heq,
        hnd, hlen, hmem, hget, hiff⟩
  · intro cfg π hπ d d₁ hwfi hwfo hstep hne1
    rcases hstep with ⟨hlow, hr⟩ | ⟨hhigh, rfl⟩
    · rcases dualRefresh_done_of_wf hwfi hwfo hlow hr with
        ⟨hrep, htar, hwfi₁, hinout⟩
      rcases dualSample_spec hπ d₁ hwfi₁ (hinout ▸ hwfi₁) hne1 with
        ⟨sel, vi, vo, heq, hnd, hlen, hmem, hvi, hvo, hcnt, hiff⟩
      exact ⟨sel, vi, vo, by rw [dualNext, if_pos hlow, hr]; exact heq,
        hnd, hlen, hmem, hvi, hvo, hiff⟩
    · rcases dualSample_spec hπ d₁ hwfi hwfo hne1 with
        ⟨sel, vi, vo, heq, hnd, hlen, hmem, hvi, hvo, hcnt, hiff⟩
      exact ⟨sel, vi, vo, by rw [dualNext, if_neg hhigh]; exact heq,
        hnd, hlen, hmem, hvi, hvo, hiff⟩

theorem next_batch_contract_witness :
    ∃ sel vs,
      next_batch ⟨1, 4, 2, 2⟩ (fun n => List.range n)
        (⟨[10, 11, 12, 13], [false, false, false, false], []⟩ : St Nat)
        = (some vs,
           { (⟨[10, 11, 12, 13], [false, false, false, false], []⟩ : St Nat)
              with read := markTrue [false, false, false, false] sel }) ∧
      sel.Nodup ∧
      sel.length = min (Cfg.out_batch_size ⟨1, 4, 2, 2⟩)
        (countFalse [false, false, false, false]) ∧
      (∀ i ∈ sel, i < ([10, 11, 12, 13] : List Nat).length ∧
        ([false, false, false, false] : List Bool).getD i true = false) ∧
      getAll [10, 11, 12, 13] sel = some vs ∧
      (∀ j, (markTrue [false, false, false, false] sel).getD j true = true ↔
        (([false, false, false, false] : List Bool).getD j true = true ∨
          j ∈ sel)) :=
  (next_batch_contract (α := Nat) (β := Nat)).1 ⟨1, 4, 2, 2⟩
    (fun n => List.range n) (fun n => List.Perm.refl _)
    ⟨[10, 11, 12, 13], [false, false, false, false], []⟩
    ⟨[10, 11, 12, 13], [false, false, false, false], []⟩
    (by decide) (Or.inr ⟨by decide, rfl⟩) (by decide)

lemma stateAfter_take_succ (cfg : Cfg) (πs : List (Nat → List Nat))
    (s₀ : St α) (m : Nat) (hm : m < πs.length) :
    stateAfter cfg (πs.take (m + 1)) s₀
      = stepState cfg (stateAfter cfg (πs.take m) s₀) πs[m] := by
  rw [stateAfter, stateAfter, List.take_succ, List.getElem?_eq_getElem hm]
  rw [List.foldl_append]
  rfl

lemma step_monotone {cfg : Cfg} {s : St α} {π : Nat → List Nat}
    (hhigh : ¬ countFalse s.read < cfg.threshold) {j : Nat}
    (h : s.read.getD j true = true) :
    (stepState cfg s π).read.getD j true = true := by
  rw [stepState, next_batch, if_neg hhigh, sample]
  by_cases h1 : (falseIdxs s.read).length = 1
  · rw [if_pos h1]
    exact h
  · rw [if_neg h1]
    cases hg : getAll s.activations (sampleSel cfg π s.read) <;>
      exact markTrue_monotone h _

/-- C2: no double-serving.  First conjunct: along any run of `__next__`
calls none of which triggers a refresh (every pre-call unconsumed count
is at least the threshold), an index whose flag flips false→true at call
j (i.e. is returned as unconsumed there) still has its flag set at every
later point of the run, so it is excluded from every later sample and is
never returned as unconsumed twice.  Second conjunct: a refresh-free
`__next__` call never resets a set flag (false→true only).  Third
conjunct: when a `refresh` returns or raises exhaustion, the new store is
the compaction of the old by the negated flags plus appended vectors, so
every consumed index was removed by the compaction before the flags were
ever reset. -/
theorem no_double_serving :
    (∀ (cfg : Cfg) (πs : List (Nat → List Nat)) (s₀ : St α) (i j k : Nat),
      (∀ m, m < πs.length →
        cfg.threshold ≤ countFalse (stateAfter cfg (πs.take m) s₀).read) →
      j < k → k < πs.length →
      (stateAfter cfg (πs.take j) s₀).read.getD i true = false →
      (stateAfter cfg (πs.take (j + 1)) s₀).read.getD i true = true →
      (stateAfter cfg (πs.take k) s₀).read.getD i true = true) ∧
    (∀ (cfg : Cfg) (π : Nat → List Nat) (s : St α),
      cfg.threshold ≤ countFalse s.read → ∀ j,
      s.read.getD j true = true →
      (stepState cfg s π).read.getD j true = true) ∧
    (∀ (cfg : Cfg) (s s₁ : St α),
      s.read.length = s.activations.length →
      (refresh cfg s = .done s₁ ∨ refresh cfg s = .exhausted s₁) →
      ∃ tail, s₁.activations
        = maskSelect s.activations (boolNot s.read) ++ tail) := by
  refine ⟨?_, ?_, ?_⟩
  · intro cfg πs s₀ i j k hth hjk hk hflip₀ hflip₁
    have key : ∀ m, j + 1 ≤ m → m ≤ k →
        (stateAfter cfg (πs.take m) s₀).read.getD i true = true := by
      intro m
      induction m with
      | zero => intro h1 _; omega
      | succ m ih =>
        intro h1 h2
        by_cases hm : m = j
        · subst hm
          exact hflip₁
        · have hmk : m < πs.length := by omega
          rw [stateAfter_take_succ cfg πs s₀ m hmk]
          exact step_monotone (Nat.not_lt.mpr (hth m hmk))
            (ih (by omega) (by omega))
    exact key k hjk (Nat.le_refl k)
  · intro cfg π s hth j h
    exact step_monotone (Nat.not_lt.mpr hth) h
  · intro cfg s s₁ hwf h
    rcases h with h | h <;> rw [refresh, if_pos hwf] at h
    · exact refreshLoop_extends _ _ _ (Or.inl h)
    · exact refreshLoop_extends _ _ _ (Or.inr h)

theorem no_double_serving_witness :
    (stateAfter ⟨1, 4, 2, 1⟩
      [fun n => List.range n, fun n => List.range n]
      (⟨[20, 21, 22, 23], [false, false, false, false], []⟩ : St Nat)).read.getD
        0 true = true :=
  no_double_serving.1 ⟨1, 4, 2, 1⟩
    [fun n => List.range n, fun n => List.range n]
    ⟨[20, 21, 22, 23], [false, false, false, false], []⟩
    0 0 1 (by decide) (by decide) (by decide) (by decide) (by decide)

lemma RRes_getState_mapState (f : σ → τ) (r : RRes σ) (s₀ : σ) :
    (r.mapState f).getState (f s₀) = f (r.getState s₀) := by
  cases r <;> rfl

lemma dualRefreshLoop_proj (cfg : Cfg) :
    ∀ (fuel : Nat) (s : St (α × β)),
      dualRefreshLoop cfg fuel (projDual s)
        = (refreshLoop cfg fuel s).mapState projDual := by
  intro fuel
  induction fuel with
  | zero => intro s; rfl
  | succ fuel ih =>
    intro s
    rw [dualRefreshLoop, refreshLoop]
    simp only [projDual, List.length_map]
    by_cases hlt : s.activations.length < cfg.target
    · rw [if_pos hlt, if_pos hlt]
      cases htb : text_batch cfg.in_batch_size s.data with
      | none => rfl
      | some p =>
        rcases p with ⟨items, rest⟩
        have hstate :
            (⟨s.activations.map Prod.fst ++ extractBatchIn cfg.ctx_len items,
              s.activations.map Prod.snd ++ extractBatchOut cfg.ctx_len items,
              List.replicate (s.activations.length
                + (extractBatchIn cfg.ctx_len items).length) false,
              rest⟩ : DSt α β)
            = projDual ⟨s.activations ++ extractBatch cfg.ctx_len items,
                List.replicate (s.activations.length
                  + (extractBatch cfg.ctx_len items).length) false,
                rest⟩ := by
          simp [projDual, extractBatchIn_eq, extractBatchOut_eq,
            List.map_append, List.length_map]
        have hih := ih ⟨s.activations ++ extractBatch cfg.ctx_len items,
          List.replicate (s.activations.length
            + (extractBatch cfg.ctx_len items).length) false, rest⟩
        rw [← hstate] at hih
        exact hih
    · rw [if_neg hlt, if_neg hlt]
      rfl

lemma dualRefresh_proj (cfg : Cfg) (s : St (α × β)) :
    dualRefresh cfg (projDual s) = (refresh cfg s).mapState projDual := by
  rw [dualRefresh, refresh]
  simp only [projDual, List.length_map]
  by_cases hwf : s.read.length = s.activations.length
  · rw [if_pos hwf, if_pos hwf, if_pos hwf]
    have hstate :
        (⟨maskSelect (s.activations.map Prod.fst) (boolNot s.read),
          maskSelect (s.activations.map Prod.snd) (boolNot s.read),
          s.read, s.data⟩ : DSt α β)
        = projDual ⟨maskSelect s.activations (boolNot s.read),
            s.read, s.data⟩ := by
      simp [projDual, maskSelect_map]
    rw [hstate, dualRefreshLoop_proj]
  · rw [if_neg hwf, if_neg hwf]
    rfl

lemma dualSample_proj (cfg : Cfg) (π : Nat → List Nat) (s : St (α × β)) :
    dualSample cfg π (projDual s)
      = ((sample cfg π s).1.map
          (fun vs => (vs.map Prod.fst, vs.map Prod.snd)),
         projDual (sample cfg π s).2) := by
  rw [dualSample, sample]
  simp only [projDual]
  by_cases h1 : (falseIdxs s.read).length = 1
  · rw [if_pos h1, if_pos h1]
    rfl
  · rw [if_neg h1, if_neg h1]
    cases hg : getAll s.activations (sampleSel cfg π s.read) with
    | none =>
      have hgi : getAll (s.activations.map Prod.fst)
          (sampleSel cfg π s.read) = none := by
        rw [getAll_map, hg]
        rfl
      have hgo : getAll (s.activations.map Prod.snd)
          (sampleSel cfg π s.read) = none := by
        rw [getAll_map, hg]
        rfl
      rw [hgi, hgo]
      rfl
    | some vs =>
      have hgi : getAll (s.activations.map Prod.fst)
          (sampleSel cfg π s.read) = some (vs.map Prod.fst) := by
        rw [getAll_map, hg]
        rfl
      have hgo : getAll (s.activations.map Prod.snd)
          (sampleSel cfg π s.read) = some (vs.map Prod.snd) := by
        rw [getAll_map, hg]
        rfl
      rw [hgi, hgo]
      rfl

lemma dualNext_proj (cfg : Cfg) (π : Nat → List Nat) (s : St (α × β)) :
    dualNext cfg π (projDual s)
      = ((next_batch cfg π s).1.map
          (fun vs => (vs.map Prod.fst, vs.map Prod.snd)),
         projDual (next_batch cfg π s).2) := by
  rw [dualNext, next_batch]
  simp only [projDual]
  by_cases hlow : countFalse s.read < cfg.threshold
  · rw [if_pos hlow, if_pos hlow]
    have hdr : dualRefresh cfg (projDual s)
        = (refresh cfg s).mapState projDual := dualRefresh_proj cfg s
    simp only [projDual] at hdr
    rw [hdr]
    cases hr : refresh cfg s with
    | done s₁ => exact dualSample_proj cfg π s₁
    | exhausted s₁ => rfl
    | maskErr s₁ => rfl
    | fuelOut => rfl
  · rw [if_neg hlow, if_neg hlow]
    exact dualSample_proj cfg π s

lemma runDual_proj (cfg : Cfg) :
    ∀ (ops : List BOp) (s : St (α × β)),
      runDual cfg ops (projDual s) = projDual (runSingle cfg ops s) := by
  intro ops
  induction ops with
  | nil => intro s; rfl
  | cons op ops ih =>
    intro s
    cases op with
    | callNext π =>
      rw [runDual, runSingle, dualNext_proj]
      exact ih _
    | callRefresh =>
      rw [runDual, runSingle, dualRefresh_proj, RRes_getState_mapState]
      exact ih _

/-- C3: dual-tap alignment.  Every state reachable from construction
through any sequence of `next_batch` and `refresh` calls (failures
included) is the componentwise projection of a single paired buffer run
by the single-tap algorithm over (input-vector, output-vector) pairs:
compaction applies the same consumed mask to both stores, each append
extends both with components of the same mask-filtered token pairs, and
each mark-consumed applies the shared index set — hence both Buffers
always have equal length and index i in one corresponds to the same
source token as index i in the other. -/
theorem dual_tap_alignment (cfg : Cfg) (ops : List BOp)
    (data : List (List (α × β))) :
    runDual cfg ops (DSt.mk [] [] [] data)
      = projDual (runSingle cfg ops (St.mk [] [] data)) ∧
    (runDual cfg ops (DSt.mk [] [] [] data)).activations_in.length
      = (runDual cfg ops (DSt.mk [] [] [] data)).activations_out.length := by
  have h0 : (DSt.mk [] [] [] data : DSt α β)
      = projDual (St.mk [] [] data) := rfl
  rw [h0, runDual_proj]
  exact ⟨rfl, by simp [projDual]⟩

end Claims

end DictLearning
